import Mathlib

/-!
Verification development for the interactive course/period registry
(`app/main.py`).  The interactive program is shallowly embedded: every
`input()` consumes the head of a list of input lines, and running out of
input (EOF would crash the Python process, leaving the registry in its
current state) is modelled by returning the current state.  Interactive
re-prompt loops consume one line per iteration and are therefore
structurally recursive on the input list (for `edit_course`, which nests
the add-section workflow, a fuel parameter equal to the number of
remaining input lines is used instead).  Characters are modelled as
ASCII: `\d` is `Char.isDigit`, `str.strip()` trims `Char.isWhitespace`.
-/

namespace ScheduleAlg

/-! ## String helpers (models of the Python string operations used) -/

/-- Model of Python `str.strip()` on the character list. -/
def pyStrip (l : List Char) : List Char :=
  ((l.dropWhile Char.isWhitespace).reverse.dropWhile Char.isWhitespace).reverse

/-- Model of `s.strip()`. -/
def strip (s : String) : String := String.mk (pyStrip s.data)

/-- Model of `s.lower()`. -/
def lower (s : String) : String := String.mk (s.data.map Char.toLower)

/-- Model of Python `str.capitalize()`: first character uppercased, the rest
lowercased. -/
def capitalizeChars : List Char → List Char
  | [] => []
  | c :: cs => c.toUpper :: cs.map Char.toLower

/-- Separator class of the regex `[,\s]` used by `_parse_days`. -/
def isSep (c : Char) : Bool := c = ',' || c.isWhitespace

/-- Model of `re.split` on a single-character class: split into the runs
between separator characters (empty tokens appear between adjacent
separators and at the ends, exactly as `re.split` produces them). -/
def splitChars (sep : Char → Bool) : List Char → List (List Char)
  | [] => [[]]
  | c :: cs =>
    let r := splitChars sep cs
    if sep c then [] :: r
    else
      match r with
      | t :: ts => (c :: t) :: ts
      | [] => [[c]]

/-- Numeric value of a digit character. -/
def dval (c : Char) : Nat := c.toNat - 48

/-- Value of a string of decimal digits (model of `int` on an all-digit
string). -/
def digitsVal (cs : List Char) : Nat := cs.foldl (fun a c => a * 10 + dval c) 0

/-- Model of Python `str.isdigit()` (ASCII): non-empty and all digits. -/
def isDigits (s : String) : Bool := !s.data.isEmpty && s.data.all Char.isDigit

/-- Model of `int(text)` restricted to all-digit strings (the only shape it
is applied to in this program). -/
def pyInt (cs : List Char) : Option Nat :=
  if !cs.isEmpty && cs.all Char.isDigit then some (digitsVal cs) else none

/-- Model of `h, m = map(int, t.split(":")); h * 60 + m`: `none` when the
split does not give exactly two integer parts (in the Python source this
raises, which the end-time edit branch catches and the add-section branch
never reaches because the string was validated). -/
def parseMinutes (t : String) : Option Nat :=
  match splitChars (fun c => c = ':') t.data with
  | [a, b] =>
    match pyInt a, pyInt b with
    | some h, some m => some (h * 60 + m)
    | _, _ => none
  | _ => none

/-- Shape test for the regex `(\d{1,2}):(\d{2})` (full match), returning the
hour and minute values on success. -/
def timeShape : List Char → Option (Nat × Nat)
  | [h1, ':', m1, m2] =>
    if h1.isDigit && m1.isDigit && m2.isDigit then
      some (dval h1, dval m1 * 10 + dval m2)
    else none
  | [h1, h2, ':', m1, m2] =>
    if h1.isDigit && h2.isDigit && m1.isDigit && m2.isDigit then
      some (dval h1 * 10 + dval h2, dval m1 * 10 + dval m2)
    else none
  | _ => none

/-! ## Validation utilities (`_parse_days`, `_valid_time_format`) -/

/-- Model of `_parse_days`: split the stripped input on runs of commas and
whitespace, drop empty tokens, capitalize each token. -/
def parse_days (raw : String) : List String :=
  if raw.data = [] then []
  else
    ((splitChars isSep (pyStrip raw.data)).filter (fun t => t ≠ [])).map
      (fun t => String.mk (capitalizeChars t))

/-- Model of `_valid_time_format`: non-empty, and the stripped text fully
matches `(\d{1,2}):(\d{2})` with hour at most 23 and minute at most 59. -/
def valid_time_format (t : String) : Bool :=
  if t.data = [] then false
  else
    match timeShape (pyStrip t.data) with
    | some (h, m) => decide (h ≤ 23) && decide (m ≤ 59)
    | none => false

/-- Spec-side predicate, written from the claim's words: the string itself
(no stripping) matches one or two digits, a colon, exactly two digits, with
hour at most 23 and minute at most 59. -/
def specTimePattern (t : String) : Bool :=
  match timeShape t.data with
  | some (h, m) => decide (h ≤ 23) && decide (m ≤ 59)
  | none => false

/-- Spec-side predicate, written from the claim's words: the string starts
with exactly one uppercase letter followed by lowercase letters. -/
def startsUpperRest (x : String) : Bool :=
  match x.data with
  | [] => false
  | c :: cs => c.isUpper && cs.all (fun d => d.isLower)

/-! ## Data model -/

/-- Model of the `Period` class. -/
structure Period where
  period_id : String
  days : List String
  time_start : String
  time_end : String
  location : String
  instructor : String
deriving DecidableEq, Repr

/-- Model of the `Course` class (`periods` starts empty in `__init__`). -/
structure Course where
  title : String
  course_id : String
  periods : List Period
deriving DecidableEq, Repr

/-- Replace the element at an index, identity when out of range. -/
def modifyIdx (f : α → α) : Nat → List α → List α
  | _, [] => []
  | 0, a :: as => f a :: as
  | n + 1, a :: as => a :: modifyIdx f n as

/-- Update course `idx` of the registry. -/
def updCourse (f : Course → Course) (idx : Nat) (cs : List Course) : List Course :=
  modifyIdx f idx cs

/-- Update period `j` of course `idx`. -/
def updPeriod (f : Period → Period) (idx j : Nat) (cs : List Course) : List Course :=
  modifyIdx (fun c => { c with periods := modifyIdx f j c.periods }) idx cs

/-- Look up period `j` of course `idx`. -/
def getPeriod (cs : List Course) (idx j : Nat) : Option Period :=
  match cs[idx]? with
  | none => none
  | some c => c.periods[j]?

/-- Number of periods of course `idx` (0 when out of range). -/
def numPeriods (cs : List Course) (idx : Nat) : Nat :=
  match cs[idx]? with
  | none => 0
  | some c => c.periods.length

/-! ## Selection helper (`choose_course` / `choose_section_index` body)

Both Python helpers run the same loop over a 1-based range, differing only
in the rendered list; `chooseFrom n` is that loop for `n` items.  The
pre-loop emptiness check of each helper is at its call site. -/

/-- The numbered-selection loop: empty input re-prompts, the cancel token
returns `none`, a numeral in `1..n` returns the 0-based index, anything
else re-prompts. -/
def chooseFrom (n : Nat) : List String → Option Nat × List String
  | [] => (none, [])
  | i :: rest =>
    let choice := strip i
    if choice = "" then chooseFrom n rest
    else if lower choice = "c" then (none, rest)
    else if isDigits choice then
      let k := digitsVal choice.data
      if 1 ≤ k ∧ k ≤ n then (some (k - 1), rest) else chooseFrom n rest
    else chooseFrom n rest

/-! ## Add-section workflow (`add_section`) -/

/-- The prompt the add-section loop is currently at, together with the
already-collected fields of the in-progress period. -/
inductive Stage where
  | sid
  | sdays (pid : String)
  | sstart (pid : String) (days : List String)
  | send (pid : String) (days : List String) (tstart : String)
  | sloc (pid : String) (days : List String) (tstart tend : String)
  | sinstr (pid : String) (days : List String) (tstart tend loc : String)
  | sagain
deriving Repr

/-- The body of `add_section` after the course has been resolved: the outer
collect-one-period loop with its nested re-prompt loops.  Each constructor
of `Stage` is one prompt of the Python code; each input line is consumed in
order.  The unvalidated-time crash path of the chronological check (only
reachable with an invalid accepted start, which the workflow never
produces) is modelled as an abort with the current state. -/
def addSecLoop (course : Course) (st : Stage) : List String → Course × List String
  | [] => (course, [])
  | i :: rest =>
    match st with
    | .sid =>
      let pid := strip i
      if pid = "" then addSecLoop course .sid rest
      else if lower pid = "c" then (course, rest)
      else addSecLoop course (.sdays pid) rest
    | .sdays pid =>
      let raw := strip i
      if lower raw = "c" then (course, rest)
      else addSecLoop course (.sstart pid (parse_days raw)) rest
    | .sstart pid days =>
      let ts := strip i
      if lower ts = "c" then (course, rest)
      else if ts = "" then addSecLoop course (.sloc pid days "" "") rest
      else if valid_time_format ts = true then addSecLoop course (.send pid days ts) rest
      else addSecLoop course (.sstart pid days) rest
    | .send pid days ts =>
      let te := strip i
      if lower te = "c" then (course, rest)
      else if valid_time_format te = true then
        match parseMinutes ts, parseMinutes te with
        | some s, some e =>
          if e ≤ s then addSecLoop course (.send pid days ts) rest
          else addSecLoop course (.sloc pid days ts te) rest
        | _, _ => (course, rest)
      else addSecLoop course (.send pid days ts) rest
    | .sloc pid days ts te =>
      let loc := strip i
      if lower loc = "c" then (course, rest)
      else addSecLoop course (.sinstr pid days ts te loc) rest
    | .sinstr pid days ts te loc =>
      let instr := strip i
      if lower instr = "c" then (course, rest)
      else
        addSecLoop
          { course with periods := course.periods ++ [⟨pid, days, ts, te, loc, instr⟩] }
          .sagain rest
    | .sagain =>
      let r := lower (strip i)
      if r = "y" then addSecLoop course .sid rest
      else if r = "n" then (course, rest)
      else if r = "c" then (course, rest)
      else addSecLoop course .sagain rest

/-- `add_section` once the course index is in hand: the defensive bounds
check, then the section-collecting loop on that course. -/
def add_section_at (idx : Nat) (cs : List Course) (inputs : List String) :
    List Course × List String :=
  if h : idx < cs.length then
    let r := addSecLoop (cs.get ⟨idx, h⟩) .sid inputs
    (cs.set idx r.1, r.2)
  else (cs, inputs)

/-- Model of `add_section`: with no index the course is chosen interactively
(`choose_course`, which cancels immediately on an empty registry); a
supplied index goes through the defensive bounds check.  A negative Python
index is not representable; no caller produces one. -/
def add_section (course_index : Option Nat) (inputs : List String) (cs : List Course) :
    List Course × List String :=
  match course_index with
  | none =>
    if cs.isEmpty then (cs, inputs)
    else
      match chooseFrom cs.length inputs with
      | (none, rest) => (cs, rest)
      | (some idx, rest) => add_section_at idx cs rest
  | some idx => add_section_at idx cs inputs

/-! ## Add-course workflow (`add_course`) -/

/-- The strict y/n prompt at the end of `add_course`: `y` runs
`add_section(len(courses) - 1)`, `n` returns, anything else re-prompts. -/
def ynAfterAdd (cs : List Course) : List String → List Course × List String
  | [] => (cs, [])
  | i :: rest =>
    let r := lower (strip i)
    if r = "y" then add_section (some (cs.length - 1)) rest cs
    else if r = "n" then (cs, rest)
    else ynAfterAdd cs rest

/-- Model of `add_course`: title prompt, id prompt (either equal to the
cancel token aborts with nothing appended), then the append and the
optional immediate add-section. -/
def add_course (inputs : List String) (cs : List Course) : List Course × List String :=
  match inputs with
  | [] => (cs, [])
  | t :: rest =>
    let title := strip t
    if lower title = "c" then (cs, rest)
    else
      match rest with
      | [] => (cs, [])
      | i :: rest2 =>
        let cid := strip i
        if lower cid = "c" then (cs, rest2)
        else ynAfterAdd (cs ++ [⟨title, cid, []⟩]) rest2

/-! ## Edit-course workflow (`edit_course`) -/

/-- The prompt the edit-course workflow is currently at.  `pick` is the
choose-section loop; the `s…` stages are the section-edit submenu for
section `j` of the course being edited. -/
inductive EStage where
  | menu
  | etitle
  | eid
  | pick
  | smenu (j : Nat)
  | spid (j : Nat)
  | sdays (j : Nat)
  | sstart (j : Nat)
  | send (j : Nat)
  | sloc (j : Nat)
  | sinstr (j : Nat)
  | sdel (j : Nat)
  | cdel
deriving Repr

/-- The body of `edit_course` after the course has been resolved to `idx`.
Fuel is the number of remaining input lines at entry; every step consumes
at least one line, so fuel never runs out before the input does.  Reading a
missing period (impossible from the real prompt flow) is modelled, like the
corresponding Python `IndexError`, as an abort with the current state. -/
def editLoop (cs : List Course) (idx : Nat) (st : EStage) :
    Nat → List String → List Course × List String
  | 0, inputs => (cs, inputs)
  | _ + 1, [] => (cs, [])
  | f + 1, i :: rest =>
    match st with
    | .menu =>
      let s := lower (strip i)
      if s = "" then editLoop cs idx .menu f rest
      else if s = "0" then (cs, rest)
      else if s = "1" then editLoop cs idx .etitle f rest
      else if s = "2" then editLoop cs idx .eid f rest
      else if s = "3" then
        if numPeriods cs idx = 0 then editLoop cs idx .menu f rest
        else editLoop cs idx .pick f rest
      else if s = "4" then
        let r := add_section (some idx) rest cs
        editLoop r.1 idx .menu f r.2
      else if s = "5" then editLoop cs idx .cdel f rest
      else editLoop cs idx .menu f rest
    | .etitle =>
      let v := strip i
      if v = "" then editLoop cs idx .menu f rest
      else editLoop (updCourse (fun c => { c with title := v }) idx cs) idx .menu f rest
    | .eid =>
      let v := strip i
      if v = "" then editLoop cs idx .menu f rest
      else editLoop (updCourse (fun c => { c with course_id := v }) idx cs) idx .menu f rest
    | .pick =>
      let choice := strip i
      if choice = "" then editLoop cs idx .pick f rest
      else if lower choice = "c" then editLoop cs idx .menu f rest
      else if isDigits choice then
        let k := digitsVal choice.data
        if 1 ≤ k ∧ k ≤ numPeriods cs idx then editLoop cs idx (.smenu (k - 1)) f rest
        else editLoop cs idx .pick f rest
      else editLoop cs idx .pick f rest
    | .smenu j =>
      let s := lower (strip i)
      if s = "" then editLoop cs idx (.smenu j) f rest
      else if s = "0" then editLoop cs idx .menu f rest
      else if s = "1" then editLoop cs idx (.spid j) f rest
      else if s = "2" then editLoop cs idx (.sdays j) f rest
      else if s = "3" then editLoop cs idx (.sstart j) f rest
      else if s = "4" then editLoop cs idx (.send j) f rest
      else if s = "5" then editLoop cs idx (.sloc j) f rest
      else if s = "6" then editLoop cs idx (.sinstr j) f rest
      else if s = "7" then editLoop cs idx (.sdel j) f rest
      else editLoop cs idx (.smenu j) f rest
    | .spid j =>
      let v := strip i
      if v = "" then editLoop cs idx (.smenu j) f rest
      else
        editLoop (updPeriod (fun p => { p with period_id := v }) idx j cs) idx
          (.smenu j) f rest
    | .sdays j =>
      let v := strip i
      if v = "" then editLoop cs idx (.smenu j) f rest
      else
        editLoop (updPeriod (fun p => { p with days := parse_days v }) idx j cs) idx
          (.smenu j) f rest
    | .sstart j =>
      let v := strip i
      if lower v = "c" ∨ v = "" then
        if v = "" then
          editLoop (updPeriod (fun p => { p with time_start := "" }) idx j cs) idx
            (.smenu j) f rest
        else editLoop cs idx (.smenu j) f rest
      else if valid_time_format v = true then
        editLoop (updPeriod (fun p => { p with time_start := v }) idx j cs) idx
          (.smenu j) f rest
      else editLoop cs idx (.smenu j) f rest
    | .send j =>
      let v := strip i
      if lower v = "c" ∨ v = "" then
        if v = "" then
          editLoop (updPeriod (fun p => { p with time_end := "" }) idx j cs) idx
            (.smenu j) f rest
        else editLoop cs idx (.smenu j) f rest
      else if valid_time_format v = true then
        match getPeriod cs idx j with
        | none => (cs, rest)
        | some p =>
          if p.time_start ≠ "" then
            match parseMinutes p.time_start, parseMinutes v with
            | some s, some m =>
              if m ≤ s then editLoop cs idx (.smenu j) f rest
              else
                editLoop (updPeriod (fun q => { q with time_end := v }) idx j cs) idx
                  (.smenu j) f rest
            | _, _ =>
              editLoop (updPeriod (fun q => { q with time_end := v }) idx j cs) idx
                (.smenu j) f rest
          else
            editLoop (updPeriod (fun q => { q with time_end := v }) idx j cs) idx
              (.smenu j) f rest
      else editLoop cs idx (.smenu j) f rest
    | .sloc j =>
      let v := strip i
      if v = "" then editLoop cs idx (.smenu j) f rest
      else
        editLoop (updPeriod (fun p => { p with location := v }) idx j cs) idx
          (.smenu j) f rest
    | .sinstr j =>
      let v := strip i
      if v = "" then editLoop cs idx (.smenu j) f rest
      else
        editLoop (updPeriod (fun p => { p with instructor := v }) idx j cs) idx
          (.smenu j) f rest
    | .sdel j =>
      let v := lower (strip i)
      if v = "yes" then
        editLoop (updCourse (fun c => { c with periods := c.periods.eraseIdx j }) idx cs)
          idx .menu f rest
      else editLoop cs idx (.smenu j) f rest
    | .cdel =>
      let v := lower (strip i)
      if v = "delete" then (cs.eraseIdx idx, rest)
      else editLoop cs idx .menu f rest

/-- Model of `edit_course`: resolve the course via `choose_course`, then the
options submenu. -/
def edit_course (inputs : List String) (cs : List Course) : List Course × List String :=
  if cs.isEmpty then (cs, inputs)
  else
    match chooseFrom cs.length inputs with
    | (none, rest) => (cs, rest)
    | (some idx, rest) => editLoop cs idx .menu rest.length rest

/-! ## Delete-course workflow (`delete_course`) -/

/-- The prompt the delete-course workflow is currently at. -/
inductive DStage where
  | menu
  | cdel
  | pick
  | sdel (j : Nat)
deriving Repr

/-- The body of `delete_course` after the course has been resolved to
`idx`. -/
def deleteLoop (cs : List Course) (idx : Nat) (st : DStage) :
    List String → List Course × List String
  | [] => (cs, [])
  | i :: rest =>
    match st with
    | .menu =>
      let s := lower (strip i)
      if s = "" then deleteLoop cs idx .menu rest
      else if s = "0" then (cs, rest)
      else if s = "1" then deleteLoop cs idx .cdel rest
      else if s = "2" then
        if numPeriods cs idx = 0 then deleteLoop cs idx .menu rest
        else deleteLoop cs idx .pick rest
      else deleteLoop cs idx .menu rest
    | .cdel =>
      let v := lower (strip i)
      if v = "delete" then (cs.eraseIdx idx, rest)
      else deleteLoop cs idx .menu rest
    | .pick =>
      let choice := strip i
      if choice = "" then deleteLoop cs idx .pick rest
      else if lower choice = "c" then deleteLoop cs idx .menu rest
      else if isDigits choice then
        let k := digitsVal choice.data
        if 1 ≤ k ∧ k ≤ numPeriods cs idx then deleteLoop cs idx (.sdel (k - 1)) rest
        else deleteLoop cs idx .pick rest
      else deleteLoop cs idx .pick rest
    | .sdel j =>
      let v := lower (strip i)
      if v = "yes" then
        deleteLoop (updCourse (fun c => { c with periods := c.periods.eraseIdx j }) idx cs)
          idx .menu rest
      else deleteLoop cs idx .menu rest

/-- Model of `delete_course`. -/
def delete_course (inputs : List String) (cs : List Course) : List Course × List String :=
  if cs.isEmpty then (cs, inputs)
  else
    match chooseFrom cs.length inputs with
    | (none, rest) => (cs, rest)
    | (some idx, rest) => deleteLoop cs idx .menu rest

/-! ## Reachability

The registry starts empty; the main menu dispatches to the four mutating
workflows.  Running a workflow on a truncated input list reproduces every
intermediate registry state (every prompt aborts with the current state on
exhausted input), so closing the empty registry under whole-workflow runs
captures exactly the reachable registry states. -/

/-- Registry states reachable through the interactive menu. -/
inductive Reachable : List Course → Prop where
  | init : Reachable []
  | addCourse (inputs : List String) {s : List Course} :
      Reachable s → Reachable (add_course inputs s).1
  | addSection (inputs : List String) {s : List Course} :
      Reachable s → Reachable (add_section none inputs s).1
  | editCourse (inputs : List String) {s : List Course} :
      Reachable s → Reachable (edit_course inputs s).1
  | deleteCourse (inputs : List String) {s : List Course} :
      Reachable s → Reachable (delete_course inputs s).1

/-! ## Invariant predicates -/

/-- `t2` is strictly later than `t1`, both read as minutes since midnight
the way the source reads them. -/
def laterThan (t1 t2 : String) : Bool :=
  match parseMinutes t1, parseMinutes t2 with
  | some a, some b => decide (a < b)
  | _, _ => false

/-- The spec's time invariant on a start/end pair: an empty start forces an
empty end, and when both are non-empty the end is strictly later. -/
def pairOK (ts te : String) : Bool :=
  if ts = "" then decide (te = "")
  else if te = "" then true
  else laterThan ts te

/-- The spec's time invariant on a period. -/
def timeInv (p : Period) : Bool := pairOK p.time_start p.time_end

/-- A freshly collected period: the time invariant holds and none of the
free-text fields is the cancel token. -/
def OKp (p : Period) : Prop :=
  timeInv p = true ∧ lower p.period_id ≠ "c" ∧ lower p.location ≠ "c" ∧
    lower p.instructor ≠ "c"

/-- Invariant carried by the add-section stages: the fields collected so
far could only have been accepted in this shape. -/
def stageOK : Stage → Prop
  | .sid => True
  | .sdays pid => lower pid ≠ "c"
  | .sstart pid _ => lower pid ≠ "c"
  | .send pid _ ts => lower pid ≠ "c" ∧ ts ≠ ""
  | .sloc pid _ ts te => lower pid ≠ "c" ∧ pairOK ts te = true
  | .sinstr pid _ ts te loc => lower pid ≠ "c" ∧ lower loc ≠ "c" ∧ pairOK ts te = true
  | .sagain => True

/-! ## Helper lemmas -/

theorem valid_ne_empty {t : String} (h : valid_time_format t = true) : t ≠ "" := by
  intro he
  rw [he] at h
  exact absurd h (by decide)

theorem pairOK_of {ts te : String} {s e : Nat} (hts : ts ≠ "") (hte : te ≠ "")
    (h1 : parseMinutes ts = some s) (h2 : parseMinutes te = some e) (hlt : s < e) :
    pairOK ts te = true := by
  simp [pairOK, laterThan, hts, hte, h1, h2, hlt]

theorem pairOK_empty : pairOK "" "" = true := by decide

/-- Every period of the course produced by the add-section loop was already
present, or was collected by the loop itself and then satisfies `OKp`. -/
theorem addSecLoop_periods (inputs : List String) :
    ∀ (course : Course) (st : Stage), stageOK st →
      ∀ p ∈ (addSecLoop course st inputs).1.periods, p ∈ course.periods ∨ OKp p := by
  induction inputs with
  | nil => exact fun course st _ p hp => Or.inl hp
  | cons i rest ih =>
    intro course st hst p hp
    cases st with
    | sid =>
      simp only [addSecLoop] at hp
      by_cases h1 : strip i = ""
      · rw [if_pos h1] at hp
        exact ih course .sid trivial p hp
      · rw [if_neg h1] at hp
        by_cases h2 : lower (strip i) = "c"
        · rw [if_pos h2] at hp; exact Or.inl hp
        · rw [if_neg h2] at hp
          exact ih course (.sdays (strip i)) h2 p hp
    | sdays pid =>
      simp only [addSecLoop] at hp
      by_cases h2 : lower (strip i) = "c"
      · rw [if_pos h2] at hp; exact Or.inl hp
      · rw [if_neg h2] at hp
        exact ih course (.sstart pid (parse_days (strip i))) hst p hp
    | sstart pid days =>
      simp only [addSecLoop] at hp
      by_cases h2 : lower (strip i) = "c"
      · rw [if_pos h2] at hp; exact Or.inl hp
      · rw [if_neg h2] at hp
        by_cases h3 : strip i = ""
        · rw [if_pos h3] at hp
          exact ih course (.sloc pid days "" "") ⟨hst, pairOK_empty⟩ p hp
        · rw [if_neg h3] at hp
          by_cases h4 : valid_time_format (strip i) = true
          · rw [if_pos h4] at hp
            exact ih course (.send pid days (strip i)) ⟨hst, h3⟩ p hp
          · rw [if_neg h4] at hp
            exact ih course (.sstart pid days) hst p hp
    | send pid days ts =>
      obtain ⟨hpid, hts⟩ := hst
      simp only [addSecLoop] at hp
      by_cases h2 : lower (strip i) = "c"
      · rw [if_pos h2] at hp; exact Or.inl hp
      · rw [if_neg h2] at hp
        by_cases h4 : valid_time_format (strip i) = true
        · rw [if_pos h4] at hp
          cases hs : parseMinutes ts with
          | none => rw [hs] at hp; exact Or.inl hp
          | some s =>
            cases he : parseMinutes (strip i) with
            | none => rw [hs, he] at hp; exact Or.inl hp
            | some e =>
              rw [hs, he] at hp
              dsimp only at hp
              by_cases h5 : e ≤ s
              · rw [if_pos h5] at hp
                exact ih course (.send pid days ts) ⟨hpid, hts⟩ p hp
              · rw [if_neg h5] at hp
                exact ih course (.sloc pid days ts (strip i))
                  ⟨hpid, pairOK_of hts (valid_ne_empty h4) hs he (Nat.lt_of_not_le h5)⟩ p hp
        · rw [if_neg h4] at hp
          exact ih course (.send pid days ts) ⟨hpid, hts⟩ p hp
    | sloc pid days ts te =>
      obtain ⟨hpid, hpair⟩ := hst
      simp only [addSecLoop] at hp
      by_cases h2 : lower (strip i) = "c"
      · rw [if_pos h2] at hp; exact Or.inl hp
      · rw [if_neg h2] at hp
        exact ih course (.sinstr pid days ts te (strip i)) ⟨hpid, h2, hpair⟩ p hp
    | sinstr pid days ts te loc =>
      obtain ⟨hpid, hloc, hpair⟩ := hst
      simp only [addSecLoop] at hp
      by_cases h2 : lower (strip i) = "c"
      · rw [if_pos h2] at hp; exact Or.inl hp
      · rw [if_neg h2] at hp
        have h := ih { course with periods := course.periods ++ [⟨pid, days, ts, te, loc, strip i⟩] }
          .sagain trivial p hp
        rcases h with h | h
        · rcases List.mem_append.mp h with h | h
          · exact Or.inl h
          · rcases List.mem_singleton.mp h with rfl
            exact Or.inr ⟨hpair, hpid, hloc, h2⟩
        · exact Or.inr h
    | sagain =>
      simp only [addSecLoop] at hp
      by_cases h1 : lower (strip i) = "y"
      · rw [if_pos h1] at hp
        exact ih course .sid trivial p hp
      · rw [if_neg h1] at hp
        by_cases h2 : lower (strip i) = "n"
        · rw [if_pos h2] at hp; exact Or.inl hp
        · rw [if_neg h2] at hp
          by_cases h3 : lower (strip i) = "c"
          · rw [if_pos h3] at hp; exact Or.inl hp
          · rw [if_neg h3] at hp
            exact ih course .sagain trivial p hp

/-- The add-section loop never changes the course's title or id. -/
theorem addSecLoop_ids (inputs : List String) :
    ∀ (course : Course) (st : Stage),
      (addSecLoop course st inputs).1.title = course.title ∧
        (addSecLoop course st inputs).1.course_id = course.course_id := by
  induction inputs with
  | nil => exact fun course st => ⟨rfl, rfl⟩
  | cons i rest ih =>
    intro course st
    cases st <;> simp only [addSecLoop] <;> repeat' split
    all_goals first
      | exact ⟨rfl, rfl⟩
      | exact ih _ _

theorem get_append_last {α : Type _} (l : List α) (a : α)
    (h : l.length < (l ++ [a]).length) : (l ++ [a]).get ⟨l.length, h⟩ = a := by
  induction l with
  | nil => rfl
  | cons b bs ih => exact ih (by simp)

theorem set_append_last {α : Type _} (l : List α) (a b : α) :
    (l ++ [a]).set l.length b = l ++ [b] := by
  induction l with
  | nil => rfl
  | cons c cs ih => exact congrArg (List.cons c) ih

/-- The y/n prompt after appending a course only ever grows the periods of
the appended course: the registry stays `cs0` followed by one course with
the appended course's title and id. -/
theorem ynAfterAdd_append (inputs : List String) :
    ∀ (cs0 : List Course) (c0 : Course), ∃ c' rest',
      ynAfterAdd (cs0 ++ [c0]) inputs = (cs0 ++ [c'], rest') ∧
        c'.title = c0.title ∧ c'.course_id = c0.course_id := by
  induction inputs with
  | nil => exact fun cs0 c0 => ⟨c0, [], rfl, rfl, rfl⟩
  | cons i rest ih =>
    intro cs0 c0
    simp only [ynAfterAdd]
    by_cases hy : lower (strip i) = "y"
    · rw [if_pos hy]
      have hlen : (cs0 ++ [c0]).length - 1 = cs0.length := by simp
      have hidx : cs0.length < (cs0 ++ [c0]).length := by simp
      rw [add_section, hlen, add_section_at, dif_pos hidx, get_append_last]
      refine ⟨(addSecLoop c0 .sid rest).1, (addSecLoop c0 .sid rest).2, ?_,
        (addSecLoop_ids rest c0 .sid).1, (addSecLoop_ids rest c0 .sid).2⟩
      show ((cs0 ++ [c0]).set cs0.length (addSecLoop c0 .sid rest).1,
        (addSecLoop c0 .sid rest).2) = _
      rw [set_append_last]
    · rw [if_neg hy]
      by_cases hn : lower (strip i) = "n"
      · rw [if_pos hn]; exact ⟨c0, rest, rfl, rfl, rfl⟩
      · rw [if_neg hn]; exact ih cs0 c0

/-- Every course in the registry after `add_course` was already there or
has the entered (stripped, non-cancel) title and id. -/
theorem add_course_members (inputs : List String) (cs : List Course) :
    ∀ c' ∈ (add_course inputs cs).1,
      c' ∈ cs ∨ (lower c'.title ≠ "c" ∧ lower c'.course_id ≠ "c") := by
  cases inputs with
  | nil => exact fun c' h => Or.inl h
  | cons t rest =>
    cases rest with
    | nil =>
      simp only [add_course]
      by_cases h1 : lower (strip t) = "c"
      · rw [if_pos h1]; exact fun c' h => Or.inl h
      · rw [if_neg h1]; exact fun c' h => Or.inl h
    | cons i rest2 =>
      simp only [add_course]
      by_cases h1 : lower (strip t) = "c"
      · rw [if_pos h1]; exact fun c' h => Or.inl h
      · rw [if_neg h1]
        by_cases h2 : lower (strip i) = "c"
        · rw [if_pos h2]; exact fun c' h => Or.inl h
        · rw [if_neg h2]
          intro c' hc'
          obtain ⟨c1, rest', heq, ht, hi⟩ :=
            ynAfterAdd_append rest2 cs ⟨strip t, strip i, []⟩
          rw [heq] at hc'
          rcases List.mem_append.mp hc' with h | h
          · exact Or.inl h
          · rcases List.mem_singleton.mp h with rfl
            exact Or.inr ⟨by rw [ht]; exact h1, by rw [hi]; exact h2⟩

/-- Every period of every course after `add_section` was already present in
some course, or was collected by this invocation and then satisfies
`OKp`. -/
theorem add_section_periods (course_index : Option Nat) (inputs : List String)
    (cs : List Course) :
    ∀ c' ∈ (add_section course_index inputs cs).1, ∀ p ∈ c'.periods,
      (∃ c ∈ cs, p ∈ c.periods) ∨ OKp p := by
  have hat : ∀ (idx : Nat) (ins : List String), ∀ c' ∈ (add_section_at idx cs ins).1,
      ∀ p ∈ c'.periods, (∃ c ∈ cs, p ∈ c.periods) ∨ OKp p := by
    intro idx ins c' hc' p hp
    rw [add_section_at] at hc'
    by_cases h : idx < cs.length
    · rw [dif_pos h] at hc'
      rcases List.mem_or_eq_of_mem_set hc' with h' | rfl
      · exact Or.inl ⟨c', h', hp⟩
      · rcases addSecLoop_periods ins (cs.get ⟨idx, h⟩) .sid trivial p hp with h' | h'
        · exact Or.inl ⟨cs.get ⟨idx, h⟩, List.get_mem cs idx h, h'⟩
        · exact Or.inr h'
    · rw [dif_neg h] at hc'
      exact Or.inl ⟨c', hc', hp⟩
  cases course_index with
  | some idx => exact hat idx inputs
  | none =>
    simp only [add_section]
    by_cases hemp : cs.isEmpty
    · rw [if_pos hemp]; exact fun c' hc' p hp => Or.inl ⟨c', hc', hp⟩
    · rw [if_neg hemp]
      rcases hch : chooseFrom cs.length inputs with ⟨r, rest⟩
      cases r with
      | none => exact fun c' hc' p hp => Or.inl ⟨c', hc', hp⟩
      | some idx => exact hat idx rest

/-! ## Claim theorems -/

/-- C1 counterexample: the state in which the single period starts at 11:00
and ends at 10:00 is reachable (create it with times 09:00-10:00, then edit
the start time to 11:00 through the section-edit submenu), and its period
violates the time invariant.  The edit-start-time option checks only
`isValidTime`, never the order against the existing end time. -/
theorem C1_counterexample :
    Reachable [⟨"T", "I", [⟨"A", ["Mon"], "11:00", "10:00", "", ""⟩]⟩] ∧
      timeInv ⟨"A", ["Mon"], "11:00", "10:00", "", ""⟩ = false := by
  constructor
  · have h1 : (add_course ["T", "I", "y", "A", "Mon", "09:00", "10:00", "", "", "n"] []).1 =
        [⟨"T", "I", [⟨"A", ["Mon"], "09:00", "10:00", "", ""⟩]⟩] := by decide
    have h2 : (edit_course ["1", "3", "1", "3", "11:00", "0", "0"]
          [⟨"T", "I", [⟨"A", ["Mon"], "09:00", "10:00", "", ""⟩]⟩]).1 =
        [⟨"T", "I", [⟨"A", ["Mon"], "11:00", "10:00", "", ""⟩]⟩] := by decide
    have hr := Reachable.editCourse ["1", "3", "1", "3", "11:00", "0", "0"]
      (h1 ▸ Reachable.addCourse ["T", "I", "y", "A", "Mon", "09:00", "10:00", "", "", "n"]
        Reachable.init)
    rwa [h2] at hr
  · decide

/-- C1 (amended): every period of every course in the registry produced by
the add-section workflow either was already present in the input registry
or satisfies the time invariant (end strictly later than a non-empty start,
and no end without a start).  The invariant holds at creation time; it is
not preserved by the section-edit submenu's edit-start-time option. -/
theorem C1_add_section_time_invariant (inputs : List String) (cs : List Course) :
    ∀ c' ∈ (add_section none inputs cs).1, ∀ p ∈ c'.periods,
      (∃ c ∈ cs, p ∈ c.periods) ∨ timeInv p = true := by
  intro c' hc' p hp
  rcases add_section_periods none inputs cs c' hc' p hp with h | h
  · exact Or.inl h
  · exact Or.inr h.1

/-- Witness for C1 (amended) at a concrete run of the add-section
workflow. -/
theorem C1_add_section_time_invariant_witness :
    (∃ c ∈ ([⟨"T", "I", []⟩] : List Course),
        (⟨"A", ["Mon"], "09:00", "10:00", "", ""⟩ : Period) ∈ c.periods) ∨
      timeInv ⟨"A", ["Mon"], "09:00", "10:00", "", ""⟩ = true :=
  C1_add_section_time_invariant ["1", "A", "Mon", "09:00", "10:00", "", "", "n"]
    [⟨"T", "I", []⟩] ⟨"T", "I", [⟨"A", ["Mon"], "09:00", "10:00", "", ""⟩]⟩ (by decide)
    ⟨"A", ["Mon"], "09:00", "10:00", "", ""⟩ (by decide)

/-- C3 counterexample: `_valid_time_format` strips its argument before
matching, so a time surrounded by whitespace is accepted although it does
not itself match the claimed pattern. -/
theorem C3_counterexample :
    valid_time_format " 09:05 " = true ∧ specTimePattern " 09:05 " = false := by decide

/-- C3 (amended): `_valid_time_format` accepts exactly the strings whose
whitespace-stripped form matches one or two digits, a colon, exactly two
digits, with hour at most 23 and minute at most 59; and the four concrete
examples of the claim hold. -/
theorem C3_time_format_iff :
    (∀ t : String, valid_time_format t = specTimePattern (String.mk (pyStrip t.data))) ∧
      valid_time_format "" = false ∧ valid_time_format "24:00" = false ∧
      valid_time_format "9:5" = false ∧ valid_time_format "09:05" = true := by
  refine ⟨fun t => ?_, by decide, by decide, by decide, by decide⟩
  unfold valid_time_format specTimePattern
  by_cases h : t.data = []
  · rw [if_pos h, h]
    rfl
  · rw [if_neg h]

/-- C4 counterexample: a purely numeric token is returned unchanged by
`_parse_days` (Python `str.capitalize` leaves a non-letter first character
alone), so the result element does not start with an uppercase letter. -/
theorem C4_counterexample :
    parse_days "1" = ["1"] ∧ startsUpperRest "1" = false := by decide

/-- C4 (amended): `_parse_days` is total; every element of the result comes
from a non-empty token of the comma/whitespace split of the stripped input,
equals that token with its first character uppercased and the rest
lowercased, and is non-empty; empty or whitespace-only input yields the
empty list. -/
theorem C4_parse_days_normalizes :
    ∀ raw : String,
      (∀ x ∈ parse_days raw, ∃ t ∈ splitChars isSep (pyStrip raw.data),
          t ≠ [] ∧ x = String.mk (capitalizeChars t) ∧ x ≠ "") ∧
      (pyStrip raw.data = [] → parse_days raw = []) := by
  intro raw
  constructor
  · intro x hx
    unfold parse_days at hx
    by_cases h : raw.data = []
    · rw [if_pos h] at hx
      exact absurd hx (List.not_mem_nil x)
    · rw [if_neg h] at hx
      obtain ⟨t, ht, rfl⟩ := List.mem_map.mp hx
      obtain ⟨ht1, ht2⟩ := List.mem_filter.mp ht
      have ht2' : t ≠ [] := by simpa using ht2
      refine ⟨t, ht1, ht2', rfl, ?_⟩
      cases t with
      | nil => exact absurd rfl ht2'
      | cons c tl =>
        simp [String.ext_iff, capitalizeChars]
  · intro h
    unfold parse_days
    by_cases h0 : raw.data = []
    · rw [if_pos h0]
    · rw [if_neg h0, h]
      rfl

/-- Witness for C4 (amended) at a concrete input. -/
theorem C4_parse_days_normalizes_witness :
    (∃ t ∈ splitChars isSep (pyStrip ("mon tue" : String).data),
        t ≠ [] ∧ ("Mon" : String) = String.mk (capitalizeChars t) ∧ ("Mon" : String) ≠ "") ∧
      parse_days " " = [] :=
  ⟨(C4_parse_days_normalizes "mon tue").1 "Mon" (by decide),
   (C4_parse_days_normalizes " ").2 (by decide)⟩

/-- C9 counterexample: the add-course workflow accepts a blank title (it
only checks for the cancel token), so a registry containing a course with
an empty title is reachable. -/
theorem C9_counterexample :
    Reachable [⟨"", "X", []⟩] ∧ (Course.mk "" "X" []).title = "" := by
  constructor
  · have h : (add_course ["", "X", "n"] []).1 = [⟨"", "X", []⟩] := by decide
    exact h ▸ Reachable.addCourse ["", "X", "n"] Reachable.init
  · rfl

/-- C9 (amended): `add_course` appends exactly the stripped entered title
and id, with no non-emptiness check: entering blank lines for both fields
appends a course whose title and id are both empty. -/
theorem C9_add_course_empty_fields (cs : List Course) (rest : List String) :
    (add_course ("" :: "" :: "n" :: rest) cs).1 = cs ++ [⟨"", "", []⟩] := rfl

/-- C10: the creation workflows check the cancel token before accepting a
value, so no course appended by `add_course` has a title or id equal to the
cancel token (case-insensitively), and no period appended by `add_section`
has a period id, location or instructor equal to it; the section-edit
submenu's blank-cancels id prompt, by contrast, applies the literal input
`"c"` unconditionally. -/
theorem C10_cancel_token_fields :
    (∀ (inputs : List String) (cs : List Course), ∀ c' ∈ (add_course inputs cs).1,
        c' ∈ cs ∨ (lower c'.title ≠ "c" ∧ lower c'.course_id ≠ "c")) ∧
    (∀ (course_index : Option Nat) (inputs : List String) (cs : List Course),
        ∀ c' ∈ (add_section course_index inputs cs).1, ∀ p ∈ c'.periods,
          (∃ c ∈ cs, p ∈ c.periods) ∨
            (lower p.period_id ≠ "c" ∧ lower p.location ≠ "c" ∧
              lower p.instructor ≠ "c")) ∧
    (∀ (f : Nat) (cs : List Course) (idx j : Nat) (rest : List String),
        editLoop cs idx (.spid j) (f + 1) ("c" :: rest) =
          editLoop (updPeriod (fun p => { p with period_id := "c" }) idx j cs) idx
            (.smenu j) f rest) := by
  refine ⟨fun inputs cs => add_course_members inputs cs,
    fun ci inputs cs c' hc' p hp => ?_, fun f cs idx j rest => ?_⟩
  · rcases add_section_periods ci inputs cs c' hc' p hp with h | h
    · exact Or.inl h
    · exact Or.inr h.2
  · have hs : strip "c" = "c" := by decide
    simp only [editLoop, hs]
    rw [if_neg (by decide : ¬("c" : String) = "")]

/-- Witness for C10 at concrete runs of both creation workflows. -/
theorem C10_cancel_token_fields_witness :
    ((⟨"T", "I", []⟩ : Course) ∈ ([] : List Course) ∨
      (lower (Course.mk "T" "I" []).title ≠ "c" ∧
        lower (Course.mk "T" "I" []).course_id ≠ "c")) ∧
    ((∃ c ∈ ([⟨"T", "I", []⟩] : List Course),
        (⟨"A", [], "", "", "", ""⟩ : Period) ∈ c.periods) ∨
      (lower (Period.mk "A" [] "" "" "" "").period_id ≠ "c" ∧
        lower (Period.mk "A" [] "" "" "" "").location ≠ "c" ∧
        lower (Period.mk "A" [] "" "" "" "").instructor ≠ "c")) :=
  ⟨C10_cancel_token_fields.1 ["T", "I", "n"] [] ⟨"T", "I", []⟩ (by decide),
   C10_cancel_token_fields.2.1 none ["1", "A", "", "", "", "", "n"] [⟨"T", "I", []⟩]
     ⟨"T", "I", [⟨"A", [], "", "", "", ""⟩]⟩ (by decide) ⟨"A", [], "", "", "", ""⟩ (by decide)⟩

/-- C2: at the add-section end-time prompt (start already accepted), an
entry that passes `isValidTime` but is not strictly later than the start
(in minutes since midnight) is rejected with nothing appended, and a
subsequent valid strictly-later entry is accepted: the appended period
carries the accepted start and the second entry verbatim. -/
theorem C2_end_time_check (course : Course) (pid : String) (days : List String)
    (ts e1 e2 loc instr : String) (rest : List String) (s m1 m2 : Nat)
    (hts : valid_time_format ts = true)
    (he1 : strip e1 = e1) (he2 : strip e2 = e2) (hloc : strip loc = loc)
    (hinstr : strip instr = instr)
    (he1c : lower e1 ≠ "c") (he2c : lower e2 ≠ "c") (hlocc : lower loc ≠ "c")
    (hinstrc : lower instr ≠ "c")
    (he1v : valid_time_format e1 = true) (he2v : valid_time_format e2 = true)
    (hs : parseMinutes ts = some s) (hm1 : parseMinutes e1 = some m1)
    (hm2 : parseMinutes e2 = some m2) (hle : m1 ≤ s) (hlt : s < m2) :
    addSecLoop course (.send pid days ts) [e1] = (course, []) ∧
    addSecLoop course (.send pid days ts) (e1 :: e2 :: loc :: instr :: "n" :: rest) =
      ({ course with periods := course.periods ++ [⟨pid, days, ts, e2, loc, instr⟩] },
        rest) := by
  have step1 : ∀ l, addSecLoop course (.send pid days ts) (e1 :: l) =
      addSecLoop course (.send pid days ts) l := by
    intro l
    simp only [addSecLoop, he1]
    rw [if_neg he1c, if_pos he1v, hs, hm1]
    dsimp only
    rw [if_pos hle]
  have step2 : ∀ l, addSecLoop course (.send pid days ts) (e2 :: l) =
      addSecLoop course (.sloc pid days ts e2) l := by
    intro l
    simp only [addSecLoop, he2]
    rw [if_neg he2c, if_pos he2v, hs, hm2]
    dsimp only
    rw [if_neg (Nat.not_le.mpr hlt)]
  have step3 : ∀ l, addSecLoop course (.sloc pid days ts e2) (loc :: l) =
      addSecLoop course (.sinstr pid days ts e2 loc) l := by
    intro l
    simp only [addSecLoop, hloc]
    rw [if_neg hlocc]
  have step4 : ∀ l, addSecLoop course (.sinstr pid days ts e2 loc) (instr :: l) =
      addSecLoop
        { course with periods := course.periods ++ [⟨pid, days, ts, e2, loc, instr⟩] }
        .sagain l := by
    intro l
    simp only [addSecLoop, hinstr]
    rw [if_neg hinstrc]
  constructor
  · rw [step1]
    rfl
  · rw [step1, step2, step3, step4]
    rfl

/-- Witness for C2: start 09:00, end 08:00 rejected, end 10:00 accepted. -/
theorem C2_end_time_check_witness :
    addSecLoop ⟨"T", "I", []⟩ (.send "A" ["Mon"] "09:00") ["08:00"] =
      (⟨"T", "I", []⟩, []) ∧
    addSecLoop ⟨"T", "I", []⟩ (.send "A" ["Mon"] "09:00")
        ["08:00", "10:00", "", "", "n"] =
      (⟨"T", "I", [⟨"A", ["Mon"], "09:00", "10:00", "", ""⟩]⟩, []) :=
  C2_end_time_check ⟨"T", "I", []⟩ "A" ["Mon"] "09:00" "08:00" "10:00" "" "" [] 540 480 600
    (by decide) (by decide) (by decide) (by decide) (by decide) (by decide) (by decide)
    (by decide) (by decide) (by decide) (by decide) (by decide) (by decide) (by decide)
    (by decide) (by decide)

/-- C5: the add-course workflow is atomic under the cancel token: the token
at the title prompt or at the id prompt aborts with the registry unchanged,
and only when both fields are accepted is exactly one course appended,
carrying the stripped entered title and id. -/
theorem C5_add_course_atomic_cancel (cs : List Course) (t : String) :
    (∀ rest, lower (strip t) = "c" → add_course (t :: rest) cs = (cs, rest)) ∧
    (∀ i rest, lower (strip t) ≠ "c" → lower (strip i) = "c" →
      add_course (t :: i :: rest) cs = (cs, rest)) ∧
    (∀ i rest, lower (strip t) ≠ "c" → lower (strip i) ≠ "c" →
      ∃ c' rest', add_course (t :: i :: rest) cs = (cs ++ [c'], rest') ∧
        c'.title = strip t ∧ c'.course_id = strip i) := by
  refine ⟨fun rest h => ?_, fun i rest h1 h2 => ?_, fun i rest h1 h2 => ?_⟩
  · simp only [add_course]
    rw [if_pos h]
  · simp only [add_course]
    rw [if_neg h1, if_pos h2]
  · simp only [add_course]
    rw [if_neg h1, if_neg h2]
    exact ynAfterAdd_append rest cs ⟨strip t, strip i, []⟩

/-- Witness for C5: cancel at the title prompt, cancel at the id prompt,
and a successful append. -/
theorem C5_add_course_atomic_cancel_witness :
    add_course ["C", "x"] [] = ([], ["x"]) ∧
    add_course ["T", " c ", "x"] [] = ([], ["x"]) ∧
    ∃ c' rest', add_course ["T", "CS", "n"] [] = ([] ++ [c'], rest') ∧
      c'.title = strip "T" ∧ c'.course_id = strip "CS" :=
  ⟨(C5_add_course_atomic_cancel [] "C").1 ["x"] (by decide),
   (C5_add_course_atomic_cancel [] "T").2.1 " c " ["x"] (by decide) (by decide),
   (C5_add_course_atomic_cancel [] "T").2.2 "CS" ["n"] (by decide) (by decide)⟩

/-- C6: at the section-edit end-time prompt, a valid new end against a
non-empty (minute-parsable) start is rejected with no mutation when not
strictly later, applied when strictly later; against an empty start the
chronological check is skipped and the valid new end is applied. -/
theorem C6_edit_end_time (f : Nat) (cs : List Course) (idx j : Nat) (e : String)
    (rest : List String) (p : Period)
    (hp : getPeriod cs idx j = some p)
    (he : strip e = e) (hec : lower e ≠ "c") (hev : valid_time_format e = true) :
    (∀ s m, parseMinutes p.time_start = some s → parseMinutes e = some m → m ≤ s →
      editLoop cs idx (.send j) (f + 1) (e :: rest) =
        editLoop cs idx (.smenu j) f rest) ∧
    (∀ s m, parseMinutes p.time_start = some s → parseMinutes e = some m → s < m →
      editLoop cs idx (.send j) (f + 1) (e :: rest) =
        editLoop (updPeriod (fun q => { q with time_end := e }) idx j cs) idx
          (.smenu j) f rest) ∧
    (p.time_start = "" →
      editLoop cs idx (.send j) (f + 1) (e :: rest) =
        editLoop (updPeriod (fun q => { q with time_end := e }) idx j cs) idx
          (.smenu j) f rest) := by
  have hne : e ≠ "" := valid_ne_empty hev
  have hcor : ¬(lower e = "c" ∨ e = "") := by
    intro h
    rcases h with h | h
    · exact hec h
    · exact hne h
  refine ⟨fun s m hs hm hle => ?_, fun s m hs hm hlt => ?_, fun hts => ?_⟩
  · simp only [editLoop, he]
    rw [if_neg hcor, if_pos hev, hp]
    dsimp only
    have hts : p.time_start ≠ "" := by
      intro h0
      rw [h0] at hs
      exact Option.noConfusion (show (none : Option Nat) = some s from hs)
    rw [if_pos hts, hs, hm]
    dsimp only
    rw [if_pos hle]
  · simp only [editLoop, he]
    rw [if_neg hcor, if_pos hev, hp]
    dsimp only
    have hts : p.time_start ≠ "" := by
      intro h0
      rw [h0] at hs
      exact Option.noConfusion (show (none : Option Nat) = some s from hs)
    rw [if_pos hts, hs, hm]
    dsimp only
    rw [if_neg (Nat.not_le.mpr hlt)]
  · simp only [editLoop, he]
    rw [if_neg hcor, if_pos hev, hp]
    dsimp only
    rw [if_neg (fun hcon => hcon hts)]

/-- Witness for C6: rejection at 08:30, acceptance at 10:30, and skipping
the check against an empty start. -/
theorem C6_edit_end_time_witness :
    editLoop [⟨"T", "I", [⟨"A", [], "09:00", "10:00", "", ""⟩]⟩] 0 (.send 0) 1 ["08:30"] =
      editLoop [⟨"T", "I", [⟨"A", [], "09:00", "10:00", "", ""⟩]⟩] 0 (.smenu 0) 0 [] ∧
    editLoop [⟨"T", "I", [⟨"A", [], "09:00", "10:00", "", ""⟩]⟩] 0 (.send 0) 1 ["10:30"] =
      editLoop (updPeriod (fun q => { q with time_end := "10:30" }) 0 0
        [⟨"T", "I", [⟨"A", [], "09:00", "10:00", "", ""⟩]⟩]) 0 (.smenu 0) 0 [] ∧
    editLoop [⟨"T", "I", [⟨"A", [], "", "10:00", "", ""⟩]⟩] 0 (.send 0) 1 ["10:30"] =
      editLoop (updPeriod (fun q => { q with time_end := "10:30" }) 0 0
        [⟨"T", "I", [⟨"A", [], "", "10:00", "", ""⟩]⟩]) 0 (.smenu 0) 0 [] :=
  ⟨(C6_edit_end_time 0 [⟨"T", "I", [⟨"A", [], "09:00", "10:00", "", ""⟩]⟩] 0 0 "08:30" []
      ⟨"A", [], "09:00", "10:00", "", ""⟩ (by decide) (by decide) (by decide)
      (by decide)).1 540 510 (by decide) (by decide) (by decide),
   (C6_edit_end_time 0 [⟨"T", "I", [⟨"A", [], "09:00", "10:00", "", ""⟩]⟩] 0 0 "10:30" []
      ⟨"A", [], "09:00", "10:00", "", ""⟩ (by decide) (by decide) (by decide)
      (by decide)).2.1 540 630 (by decide) (by decide) (by decide),
   (C6_edit_end_time 0 [⟨"T", "I", [⟨"A", [], "", "10:00", "", ""⟩]⟩] 0 0 "10:30" []
      ⟨"A", [], "", "10:00", "", ""⟩ (by decide) (by decide) (by decide)
      (by decide)).2.2 (by decide)⟩

/-- C7: whole-course deletion requires the confirmation word `delete`
case-insensitively, in both the edit-course submenu and the delete-course
workflow: on confirmation the course is removed by its index and the
workflow returns; on any other input the registry is unchanged and the
menu continues. -/
theorem C7_delete_course_confirmation (cs : List Course) (idx : Nat) (conf : String)
    (rest : List String) (f : Nat) :
    (lower (strip conf) = "delete" →
      editLoop cs idx .cdel (f + 1) (conf :: rest) = (cs.eraseIdx idx, rest) ∧
      deleteLoop cs idx .cdel (conf :: rest) = (cs.eraseIdx idx, rest)) ∧
    (lower (strip conf) ≠ "delete" →
      editLoop cs idx .cdel (f + 1) (conf :: rest) = editLoop cs idx .menu f rest ∧
      deleteLoop cs idx .cdel (conf :: rest) = deleteLoop cs idx .menu rest) := by
  constructor
  · intro h
    constructor
    · simp only [editLoop]
      rw [if_pos h]
    · simp only [deleteLoop]
      rw [if_pos h]
  · intro h
    constructor
    · simp only [editLoop]
      rw [if_neg h]
    · simp only [deleteLoop]
      rw [if_neg h]

/-- Witness for C7: confirming with `DELETE` removes the course, any other
word keeps the registry unchanged. -/
theorem C7_delete_course_confirmation_witness :
    (editLoop [⟨"T", "I", []⟩] 0 .cdel 1 ["DELETE"] = ([], []) ∧
      deleteLoop [⟨"T", "I", []⟩] 0 .cdel ["DELETE"] = ([], [])) ∧
    (editLoop [⟨"T", "I", []⟩] 0 .cdel 1 ["no"] = editLoop [⟨"T", "I", []⟩] 0 .menu 0 [] ∧
      deleteLoop [⟨"T", "I", []⟩] 0 .cdel ["no"] = deleteLoop [⟨"T", "I", []⟩] 0 .menu []) :=
  ⟨(C7_delete_course_confirmation [⟨"T", "I", []⟩] 0 "DELETE" [] 0).1 (by decide),
   (C7_delete_course_confirmation [⟨"T", "I", []⟩] 0 "no" [] 0).2 (by decide)⟩

/-- C8 counterexample: after a confirmed single-section deletion the
delete-course workflow does not return to its caller: in one invocation it
keeps prompting, deletes a second section, and only returns on the
explicit back option, consuming the whole input stream. -/
theorem C8_counterexample :
    delete_course ["1", "2", "1", "yes", "2", "1", "yes", "0"]
        [⟨"T", "I", [⟨"A", [], "", "", "", ""⟩, ⟨"B", [], "", "", "", ""⟩]⟩] =
      ([⟨"T", "I", []⟩], []) := by decide

/-- C8 (amended): deleting the entire course returns to the caller at once,
while a confirmed single-section deletion loops back into the delete menu
(whose retained course index is still valid, the course list being
unchanged). -/
theorem C8_delete_menu_flow (cs : List Course) (idx j : Nat) (conf : String)
    (rest : List String) :
    (lower (strip conf) = "delete" →
      deleteLoop cs idx .cdel (conf :: rest) = (cs.eraseIdx idx, rest)) ∧
    (lower (strip conf) = "yes" →
      deleteLoop cs idx (.sdel j) (conf :: rest) =
        deleteLoop (updCourse (fun c => { c with periods := c.periods.eraseIdx j }) idx cs)
          idx .menu rest) := by
  constructor
  · intro h
    simp only [deleteLoop]
    rw [if_pos h]
  · intro h
    simp only [deleteLoop]
    rw [if_pos h]

/-- Witness for C8 (amended) at concrete confirmations. -/
theorem C8_delete_menu_flow_witness :
    deleteLoop [⟨"T", "I", []⟩] 0 .cdel ["delete"] = ([], []) ∧
    deleteLoop [⟨"T", "I", [⟨"A", [], "", "", "", ""⟩]⟩] 0 (.sdel 0) ["yes"] =
      deleteLoop (updCourse (fun c => { c with periods := c.periods.eraseIdx 0 }) 0
        [⟨"T", "I", [⟨"A", [], "", "", "", ""⟩]⟩]) 0 .menu [] :=
  ⟨(C8_delete_menu_flow [⟨"T", "I", []⟩] 0 0 "delete" []).1 (by decide),
   (C8_delete_menu_flow [⟨"T", "I", [⟨"A", [], "", "", "", ""⟩]⟩] 0 0 "yes" []).2 (by decide)⟩

end ScheduleAlg
